import Mathlib

/-!
Verification of the RPN calculator in `src/main.rs` (repository
clonidine/polish-calc).

The program evaluates Reverse Polish Notation expressions over `f32`.
We embed the source shallowly:

* `f32` values are modelled by `F32`: an exact rational together with the
  IEEE-754 special values `inf`, `negInf` and `nan`.  Arithmetic on finite
  values is exact (rounding to binary32 is not modelled; every numeric
  literal appearing in the claims is exactly representable, so the model
  and the machine agree on them).  The special-value rules of IEEE-754
  binary arithmetic are modelled explicitly; negative zero is identified
  with zero.
* Rust panics (`Option::unwrap` on `pop`, `Result::unwrap` on
  `str::parse::<f32>`, out-of-bounds indexing) become `Except CalcError`
  values: `stackUnderflow`, `malformedToken` and `emptyResult`
  respectively, following the error taxonomy the spec assigns to these
  abrupt failures.
* The `Vec<f32>` stack is modelled as a `List F32` whose head is the top
  of the stack (the last element of the `Vec`).
-/

deriving instance DecidableEq for Except

attribute [local semireducible] Rat.add Rat.sub Rat.mul Rat.inv Rat.ofScientific

namespace PolishCalc

/-- `Op` — `enum Op { Add, Sub, Mul, Div }` from the source. -/
inductive Op where
  | add
  | sub
  | mul
  | div
deriving DecidableEq

/-- Error kinds for the distinct panics of the source program, per the
spec's error taxonomy (§7). -/
inductive CalcError where
  | malformedToken
  | stackUnderflow
  | emptyResult
deriving DecidableEq

/-- Model of Rust `f32`: exact rationals plus the IEEE-754 special values.
Negative zero is identified with zero and finite arithmetic is exact. -/
inductive F32 where
  | finite (q : ℚ)
  | inf
  | negInf
  | nan
deriving DecidableEq

/-- IEEE-754 addition on the model (Rust `+` on `f32`). -/
def F32.add : F32 → F32 → F32
  | .nan, _ => .nan
  | _, .nan => .nan
  | .inf, .negInf => .nan
  | .negInf, .inf => .nan
  | .inf, _ => .inf
  | _, .inf => .inf
  | .negInf, _ => .negInf
  | _, .negInf => .negInf
  | .finite a, .finite b => .finite (a + b)

/-- IEEE-754 subtraction on the model (Rust `-` on `f32`). -/
def F32.sub : F32 → F32 → F32
  | .nan, _ => .nan
  | _, .nan => .nan
  | .inf, .inf => .nan
  | .negInf, .negInf => .nan
  | .inf, _ => .inf
  | .negInf, _ => .negInf
  | _, .inf => .negInf
  | _, .negInf => .inf
  | .finite a, .finite b => .finite (a - b)

/-- IEEE-754 multiplication on the model (Rust `*` on `f32`). -/
def F32.mul : F32 → F32 → F32
  | .nan, _ => .nan
  | _, .nan => .nan
  | .inf, .inf => .inf
  | .inf, .negInf => .negInf
  | .negInf, .inf => .negInf
  | .negInf, .negInf => .inf
  | .inf, .finite b => if b = 0 then .nan else if 0 < b then .inf else .negInf
  | .negInf, .finite b => if b = 0 then .nan else if 0 < b then .negInf else .inf
  | .finite a, .inf => if a = 0 then .nan else if 0 < a then .inf else .negInf
  | .finite a, .negInf => if a = 0 then .nan else if 0 < a then .negInf else .inf
  | .finite a, .finite b => .finite (a * b)

/-- IEEE-754 division on the model (Rust `/` on `f32`): division by zero is
not special-cased away, it yields `inf`, `negInf` or `nan`. -/
def F32.div : F32 → F32 → F32
  | .nan, _ => .nan
  | _, .nan => .nan
  | .inf, .inf => .nan
  | .inf, .negInf => .nan
  | .negInf, .inf => .nan
  | .negInf, .negInf => .nan
  | .inf, .finite b => if 0 ≤ b then .inf else .negInf
  | .negInf, .finite b => if 0 ≤ b then .negInf else .inf
  | .finite _, .inf => .finite 0
  | .finite _, .negInf => .finite 0
  | .finite a, .finite b =>
    if b = 0 then
      if 0 < a then .inf else if a < 0 then .negInf else .nan
    else .finite (a / b)

/-- `Num` — `struct Num(f32)` from the source. -/
structure Num where
  val : F32
deriving DecidableEq

/-- `Expr` — `enum Expr { Num(Num), Op(Op) }` from the source. -/
inductive Expr where
  | num (n : Num)
  | op (o : Op)
deriving DecidableEq

/-- `BinOp` — `struct BinOp { op: Op, lhs: Num, mhs: Num }` from the source. -/
structure BinOp where
  op : Op
  lhs : Num
  mhs : Num

/-- `BinOp::eval` from the source: dispatch on the operator kind. -/
def BinOp.eval (b : BinOp) : F32 :=
  match b.op with
  | .add => F32.add b.lhs.val b.mhs.val
  | .sub => F32.sub b.lhs.val b.mhs.val
  | .mul => F32.mul b.lhs.val b.mhs.val
  | .div => F32.div b.lhs.val b.mhs.val

/-- `Rpn::push` from the source.  A number is pushed; an operator pops
`mhs` (top) then `lhs` and pushes `BinOp { op, lhs, mhs }.eval()`.  The
two `pop().unwrap()` calls panic when fewer than two values are on the
stack; that panic is the `stackUnderflow` error. -/
def Rpn.push (st : List F32) (e : Expr) : Except CalcError (List F32) :=
  match e with
  | .num n => .ok (n.val :: st)
  | .op o =>
    match st with
    | mhs :: lhs :: rest => .ok ((BinOp.mk o (Num.mk lhs) (Num.mk mhs)).eval :: rest)
    | _ => .error .stackUnderflow

/-- Consume an optional ASCII sign, as Rust float parsing does.  Returns
whether the sign was negative, and the remaining characters. -/
def parseSign : List Char → Bool × List Char
  | '-' :: cs => (true, cs)
  | '+' :: cs => (false, cs)
  | cs => (false, cs)

/-- Consume a maximal run of ASCII digits, accumulating their value and
count.  Returns (value, number of digits, rest). -/
def parseDigits : Nat → Nat → List Char → Nat × Nat × List Char
  | v, n, [] => (v, n, [])
  | v, n, c :: cs =>
    if c.isDigit then parseDigits (10 * v + (c.toNat - 48)) (n + 1) cs
    else (v, n, c :: cs)

/-- Consume an optional exponent part `e[+-]digits` (the input has already
been lowercased) and apply it; the whole input must be consumed. -/
def applyExp (m : ℚ) : List Char → Option ℚ
  | [] => some m
  | 'e' :: rest =>
    let s := parseSign rest
    let d := parseDigits 0 0 s.2
    if d.2.1 = 0 then none
    else if d.2.2 = [] then some (if s.1 then m / 10 ^ d.1 else m * 10 ^ d.1)
    else none
  | _ => none

/-- Parse an unsigned decimal number `digits [. digits] [exp]` per the
grammar of Rust `f32::from_str`; at least one mantissa digit is required
and the whole input must be consumed. -/
def parseNumber (cs : List Char) : Option ℚ :=
  let d := parseDigits 0 0 cs
  match d.2.2 with
  | '.' :: rest2 =>
    let f := parseDigits 0 0 rest2
    if d.2.1 = 0 ∧ f.2.1 = 0 then none
    else applyExp ((d.1 : ℚ) + (f.1 : ℚ) / 10 ^ f.2.1) f.2.2
  | _ =>
    if d.2.1 = 0 then none else applyExp (d.1 : ℚ) d.2.2

/-- Modelled from the spec: the call `c.parse::<f32>()` in the source uses
Rust's standard `f32::from_str`, whose code is not part of this repository.
Its documented grammar is `[+-]? (inf | infinity | nan | number)`,
case-insensitive on the special spellings, where `number` is a decimal
with optional fraction and exponent.  The numeric value is kept exact
(rounding to binary32 is not modelled). -/
def parseF32 (tok : List Char) : Option F32 :=
  let cs := tok.map Char.toLower
  let s := parseSign cs
  if s.2 = ['i', 'n', 'f'] ∨ s.2 = ['i', 'n', 'f', 'i', 'n', 'i', 't', 'y'] then
    some (if s.1 then F32.negInf else F32.inf)
  else if s.2 = ['n', 'a', 'n'] then
    some F32.nan
  else
    match parseNumber s.2 with
    | some q => some (F32.finite (if s.1 then -q else q))
    | none => none

/-- Rust `str::split(' ')`: split at every single space character, keeping
empty pieces (n spaces produce n+1 pieces). -/
def splitSpaces : List Char → List (List Char)
  | [] => [[]]
  | c :: cs =>
    if c = ' ' then [] :: splitSpaces cs
    else
      match splitSpaces cs with
      | t :: ts => (c :: t) :: ts
      | [] => [[c]]

/-- Classification of one raw token, as in the `match c` of
`ExprParser::parse`: the four exact operator symbols, otherwise a float
parse whose `unwrap` panic is the `malformedToken` error. -/
def classify (tok : List Char) : Except CalcError Expr :=
  if tok = ['+'] then .ok (.op .add)
  else if tok = ['-'] then .ok (.op .sub)
  else if tok = ['*'] then .ok (.op .mul)
  else if tok = ['/'] then .ok (.op .div)
  else
    match parseF32 tok with
    | some v => .ok (.num (Num.mk v))
    | none => .error .malformedToken

/-- `ExprParser::parse` from the source: an empty input yields
`[Num(0.0)]`, otherwise the input is split on spaces and each raw token is
classified in order. -/
def ExprParser.parse (input : String) : Except CalcError (List Expr) :=
  if input.toList = [] then .ok [Expr.num (Num.mk (F32.finite 0))]
  else (splitSpaces input.toList).mapM classify

/-- The token loop of `calculate`, started from an arbitrary stack:
`for token in tokens { rpn.push(token) }`. -/
def runFrom (st : List F32) (tokens : List Expr) : Except CalcError (List F32) :=
  tokens.foldlM Rpn.push st

/-- The token loop of `calculate`, started from the empty stack. -/
def runTokens (tokens : List Expr) : Except CalcError (List F32) :=
  runFrom [] tokens

/-- The return step of `calculate`: `rpn.0[len-1]` when the stack holds
more than one element, otherwise `rpn.0[0]`.  In this embedding the head
of the list is the last element of the `Vec`; an out-of-bounds index panic
is the `emptyResult` error. -/
def finalValue (st : List F32) : Except CalcError F32 :=
  if st.length > 1 then
    match st.head? with
    | some v => .ok v
    | none => .error .emptyResult
  else
    match st.getLast? with
    | some v => .ok v
    | none => .error .emptyResult

/-- `calculate` from the source: parse, reduce, return the final value. -/
def calculate (expression : String) : Except CalcError F32 := do
  let tokens ← ExprParser.parse expression
  let st ← runTokens tokens
  finalValue st

/-- Definition following the spec's words for claim C9: return the last
element of the stack (the last element of the `Vec`, i.e. the head of the
list in this embedding). -/
def finalValueSpec (st : List F32) : Except CalcError F32 :=
  match st.head? with
  | some v => .ok v
  | none => .error .emptyResult

/-- Unfolding of the token loop on a cons cell. -/
theorem runFrom_cons (st : List F32) (x : Expr) (xs : List Expr) :
    runFrom st (x :: xs) =
      match Rpn.push st x with
      | .ok st2 => runFrom st2 xs
      | .error e => .error e := by
  show (Rpn.push st x >>= fun s => List.foldlM Rpn.push s xs) = _
  rcases Rpn.push st x with e | st2 <;> rfl

/-- The token loop splits over list append. -/
theorem runFrom_append (st : List F32) (a b : List Expr) :
    runFrom st (a ++ b) =
      match runFrom st a with
      | .ok st2 => runFrom st2 b
      | .error e => .error e := by
  induction a generalizing st with
  | nil => rfl
  | cons x xs ih =>
    rw [List.cons_append, runFrom_cons, runFrom_cons]
    rcases Rpn.push st x with e | st2
    · rfl
    · exact ih st2

/-- Running a block of number tokens pushes their values in order. -/
theorem runFrom_numbers (qs : List ℚ) (st : List F32) :
    runFrom st (qs.map fun q => Expr.num (Num.mk (F32.finite q))) =
      .ok ((qs.map F32.finite).reverse ++ st) := by
  induction qs generalizing st with
  | nil => rfl
  | cons q qs ih =>
    rw [List.map_cons, runFrom_cons]
    show runFrom (F32.finite q :: st) _ = _
    rw [ih]
    simp

/-- Running k Add operators over a stack of k+1 finite values folds them
into a single value. -/
theorem runFrom_adds (vs : List ℚ) (a : ℚ) :
    runFrom (F32.finite a :: vs.map F32.finite)
        (List.replicate vs.length (Expr.op Op.add)) =
      .ok [F32.finite (vs.foldl (fun acc v => v + acc) a)] := by
  induction vs generalizing a with
  | nil => rfl
  | cons v vs ih =>
    rw [List.map_cons, List.length_cons, List.replicate_succ, runFrom_cons]
    show runFrom (F32.finite (v + a) :: vs.map F32.finite) _ = _
    rw [ih]
    rfl

/-- Folding flipped addition over rationals computes the sum. -/
theorem foldl_flip_add_sum (vs : List ℚ) (a : ℚ) :
    vs.foldl (fun acc v => v + acc) a = a + vs.sum := by
  induction vs generalizing a with
  | nil => simp
  | cons v vs ih =>
    rw [List.foldl_cons, ih, List.sum_cons]
    ring

/-- The final step on a stack of two or more values returns the top. -/
theorem finalValue_cons_cons (v w : F32) (rest : List F32) :
    finalValue (v :: w :: rest) = .ok v := by
  have hl : 1 < (v :: w :: rest).length := by simp
  unfold finalValue
  rw [if_pos hl]
  rfl

/-- C1: an operator processed with at least two stacked values pops the
top as right and the next as left and pushes exactly left + right for
Add, left - right for Sub, left * right for Mul and left / right for Div;
in particular evaluate "1 3 +" = 4, "1 3 -" = -2, "1 3 *" = 3 and
"4 2 /" = 2. -/
theorem C1_operator_semantics :
    (∀ (r l : F32) (rest : List F32),
      Rpn.push (r :: l :: rest) (Expr.op Op.add) = .ok (F32.add l r :: rest) ∧
      Rpn.push (r :: l :: rest) (Expr.op Op.sub) = .ok (F32.sub l r :: rest) ∧
      Rpn.push (r :: l :: rest) (Expr.op Op.mul) = .ok (F32.mul l r :: rest) ∧
      Rpn.push (r :: l :: rest) (Expr.op Op.div) = .ok (F32.div l r :: rest)) ∧
    calculate "1 3 +" = .ok (F32.finite 4) ∧
    calculate "1 3 -" = .ok (F32.finite (-2)) ∧
    calculate "1 3 *" = .ok (F32.finite 3) ∧
    calculate "4 2 /" = .ok (F32.finite 2) :=
  ⟨fun _ _ _ => ⟨rfl, rfl, rfl, rfl⟩, by decide, by decide, by decide, by decide⟩

/-- C2 counterexample: the whitespace-only input " " is not treated as the
empty input; splitting it yields two empty raw tokens and evaluation fails
with MalformedToken instead of returning 0.0. -/
theorem C2_counterexample_whitespace :
    ExprParser.parse " " = .error CalcError.malformedToken ∧
    calculate " " = .error CalcError.malformedToken ∧
    calculate " " ≠ .ok (F32.finite 0) :=
  ⟨by decide, by decide, by decide⟩

/-- C2 (amended): for the zero-length input the tokenizer returns the
single-element sequence with Number 0.0 and evaluation returns 0.0 rather
than failing; in particular evaluate "" = 0.0. -/
theorem C2_empty_input :
    ExprParser.parse "" = .ok [Expr.num (Num.mk (F32.finite 0))] ∧
    calculate "" = .ok (F32.finite 0) :=
  ⟨by decide, by decide⟩

/-- C3: when reduction ends with a stack of more than one element,
evaluation returns only the topmost (last-pushed) value and silently
ignores the rest; in particular evaluate "1 2 3" = 3 and
evaluate "1 2 3.5" = 3.5. -/
theorem C3_topmost_wins :
    (∀ (tokens : List Expr) (v w : F32) (rest : List F32),
      runTokens tokens = .ok (v :: w :: rest) →
      (match runTokens tokens with
        | .ok st => finalValue st
        | .error e => .error e) = .ok v) ∧
    calculate "1 2 3" = .ok (F32.finite 3) ∧
    calculate "1 2 3.5" = .ok (F32.finite (7 / 2)) := by
  refine ⟨fun tokens v w rest h => ?_, by decide, by decide⟩
  rw [h]
  exact finalValue_cons_cons v w rest

/-- Witness for C3 at the token sequence of "1 2 3". -/
theorem C3_witness :
    (match runTokens [Expr.num (Num.mk (F32.finite 1)), Expr.num (Num.mk (F32.finite 2)),
        Expr.num (Num.mk (F32.finite 3))] with
      | .ok st => finalValue st
      | .error e => .error e) = .ok (F32.finite 3) :=
  C3_topmost_wins.1
    [Expr.num (Num.mk (F32.finite 1)), Expr.num (Num.mk (F32.finite 2)),
      Expr.num (Num.mk (F32.finite 3))]
    (F32.finite 3) (F32.finite 2) [F32.finite 1] (by decide)

/-- C4: an operator reached with fewer than two stacked values fails with
StackUnderflow, surfaced to the caller; in particular
evaluate "1 + +" = StackUnderflow. -/
theorem C4_stack_underflow :
    (∀ (o : Op) (st : List F32), st.length < 2 →
      Rpn.push st (Expr.op o) = .error CalcError.stackUnderflow) ∧
    calculate "1 + +" = .error CalcError.stackUnderflow := by
  refine ⟨fun o st h => ?_, by decide⟩
  match st with
  | [] => rfl
  | [v] => rfl
  | v :: w :: rest => exact absurd h (by simp)

/-- Witness for C4 at a one-element stack. -/
theorem C4_witness :
    Rpn.push [F32.finite 1] (Expr.op Op.add) = .error CalcError.stackUnderflow :=
  C4_stack_underflow.1 Op.add [F32.finite 1] (by decide)

/-- C5: a raw token that is neither one of the four operator symbols nor a
parseable float fails with MalformedToken, an error distinct from the
runtime evaluation errors; in particular evaluate "1 2 %" = MalformedToken. -/
theorem C5_malformed_token :
    (∀ tok : List Char,
      tok ≠ ['+'] → tok ≠ ['-'] → tok ≠ ['*'] → tok ≠ ['/'] →
      parseF32 tok = none →
      classify tok = .error CalcError.malformedToken) ∧
    calculate "1 2 %" = .error CalcError.malformedToken ∧
    CalcError.malformedToken ≠ CalcError.stackUnderflow ∧
    CalcError.malformedToken ≠ CalcError.emptyResult := by
  refine ⟨fun tok h1 h2 h3 h4 hp => ?_, by decide, by decide, by decide⟩
  simp [classify, h1, h2, h3, h4, hp]

/-- Witness for C5 at the raw token "%". -/
theorem C5_witness :
    classify ['%'] = .error CalcError.malformedToken :=
  C5_malformed_token.1 ['%'] (by decide) (by decide) (by decide) (by decide) (by decide)

/-- C6: division by zero is not an error: a Div with right operand 0.0
succeeds and produces an IEEE-754 special value (infinity or NaN); in
particular evaluate "1 0 /" = positive infinity. -/
theorem C6_div_by_zero :
    (∀ (l : F32) (rest : List F32),
      Rpn.push (F32.finite 0 :: l :: rest) (Expr.op Op.div) =
        .ok (F32.div l (F32.finite 0) :: rest)) ∧
    (∀ l : F32,
      F32.div l (F32.finite 0) = F32.inf ∨ F32.div l (F32.finite 0) = F32.negInf ∨
        F32.div l (F32.finite 0) = F32.nan) ∧
    calculate "1 0 /" = .ok F32.inf := by
  refine ⟨fun l rest => rfl, fun l => ?_, by decide⟩
  match l with
  | .inf => exact Or.inl (by decide)
  | .negInf => exact Or.inr (Or.inl (by decide))
  | .nan => exact Or.inr (Or.inr (by decide))
  | .finite q =>
    rcases lt_trichotomy q 0 with hq | hq | hq
    · exact Or.inr (Or.inl (by simp [F32.div, hq, not_lt_of_lt hq]))
    · subst hq
      exact Or.inr (Or.inr (by decide))
    · exact Or.inl (by simp [F32.div, hq])

/-- C7: for n ≥ 1 numbers followed by n-1 Add operators (strict RPN-valid
form) the reduction succeeds with exactly the sum of the n numbers as the
single stack value, which evaluation returns. -/
theorem C7_rpn_sum (qs : List ℚ) (h : qs ≠ []) :
    runTokens ((qs.map fun q => Expr.num (Num.mk (F32.finite q))) ++
        List.replicate (qs.length - 1) (Expr.op Op.add)) =
      .ok [F32.finite qs.sum] ∧
    (match runTokens ((qs.map fun q => Expr.num (Num.mk (F32.finite q))) ++
        List.replicate (qs.length - 1) (Expr.op Op.add)) with
      | .ok st => finalValue st
      | .error e => .error e) = .ok (F32.finite qs.sum) := by
  have hrn : qs.reverse ≠ [] := by simpa using h
  obtain ⟨a, vs, hav⟩ := List.exists_cons_of_ne_nil hrn
  have hlen : qs.length - 1 = vs.length := by
    have hc := congrArg List.length hav
    simp only [List.length_reverse, List.length_cons] at hc
    omega
  have hstack : (qs.map F32.finite).reverse ++ ([] : List F32) =
      F32.finite a :: vs.map F32.finite := by
    rw [List.append_nil, ← List.map_reverse, hav, List.map_cons]
  have hsum : vs.foldl (fun acc v => v + acc) a = qs.sum := by
    rw [foldl_flip_add_sum, ← List.sum_cons, ← hav, List.sum_reverse]
  have h1 : runTokens ((qs.map fun q => Expr.num (Num.mk (F32.finite q))) ++
      List.replicate (qs.length - 1) (Expr.op Op.add)) = .ok [F32.finite qs.sum] := by
    show runFrom [] _ = _
    rw [runFrom_append, runFrom_numbers]
    show runFrom ((qs.map F32.finite).reverse ++ []) _ = _
    rw [hstack, hlen, runFrom_adds, hsum]
  refine ⟨h1, ?_⟩
  rw [h1]
  rfl

/-- Witness for C7 at the numbers 1, 2, 3. -/
theorem C7_witness :
    runTokens (([(1 : ℚ), 2, 3].map fun q => Expr.num (Num.mk (F32.finite q))) ++
        List.replicate (([(1 : ℚ), 2, 3]).length - 1) (Expr.op Op.add)) =
      .ok [F32.finite ([(1 : ℚ), 2, 3]).sum] :=
  (C7_rpn_sum [1, 2, 3] (by decide)).1

/-- C8: an operator processed with pre-size ≥ 2 stacked values leaves
exactly pre-size − 1 values on the stack (the stack holds only f32 values
by construction: it is a list over the numeric type). -/
theorem C8_op_shrinks_stack (o : Op) (st st' : List F32)
    (hlen : 2 ≤ st.length) (hpush : Rpn.push st (Expr.op o) = .ok st') :
    st'.length = st.length - 1 := by
  match st with
  | [] => simp at hlen
  | [v] => simp at hlen
  | mhs :: lhs :: rest =>
    have h2 : (BinOp.mk o (Num.mk lhs) (Num.mk mhs)).eval :: rest = st' :=
      Except.ok.inj hpush
    rw [← h2]
    simp

/-- Witness for C8 at the stack [1, 2] and the Add operator. -/
theorem C8_witness :
    ([F32.finite 3] : List F32).length =
      ([F32.finite 1, F32.finite 2] : List F32).length - 1 :=
  C8_op_shrinks_stack Op.add [F32.finite 1, F32.finite 2] [F32.finite 3]
    (by decide) (by decide)

/-- C9: on every non-empty final stack the two return paths of calculate
(index len−1 when len > 1, index 0 otherwise) agree with the single
definition returning the last element of the stack. -/
theorem C9_final_refinement (st : List F32) (h : st ≠ []) :
    finalValue st = finalValueSpec st := by
  match st with
  | [] => exact absurd rfl h
  | [v] => rfl
  | v :: w :: rest => rw [finalValue_cons_cons]; rfl

/-- Witness for C9 at a one-element stack. -/
theorem C9_witness :
    finalValue [F32.finite 5] = finalValueSpec [F32.finite 5] :=
  C9_final_refinement [F32.finite 5] (by decide)

/-- C10: any raw token other than the four operator symbols that the f32
grammar accepts is classified as a Number — including negative literals
such as "-3", exponent notation such as "1e3", and the spellings "inf",
"-inf" and "NaN", whose IEEE-754 values flow into the arithmetic. -/
theorem C10_float_literals :
    (∀ (tok : List Char) (v : F32),
      tok ≠ ['+'] → tok ≠ ['-'] → tok ≠ ['*'] → tok ≠ ['/'] →
      parseF32 tok = some v →
      classify tok = .ok (Expr.num (Num.mk v))) ∧
    classify "-3".toList = .ok (Expr.num (Num.mk (F32.finite (-3)))) ∧
    classify "1e3".toList = .ok (Expr.num (Num.mk (F32.finite 1000))) ∧
    classify "inf".toList = .ok (Expr.num (Num.mk F32.inf)) ∧
    classify "-inf".toList = .ok (Expr.num (Num.mk F32.negInf)) ∧
    classify "NaN".toList = .ok (Expr.num (Num.mk F32.nan)) ∧
    calculate "1 inf +" = .ok F32.inf := by
  refine ⟨fun tok v h1 h2 h3 h4 hp => ?_,
    by decide, by decide, by decide, by decide, by decide, by decide⟩
  simp [classify, h1, h2, h3, h4, hp]

/-- Witness for C10 at the raw token "-3". -/
theorem C10_witness :
    classify "-3".toList = .ok (Expr.num (Num.mk (F32.finite (-3)))) :=
  C10_float_literals.1 "-3".toList (F32.finite (-3))
    (by decide) (by decide) (by decide) (by decide) (by decide)

end PolishCalc
